import Mathlib

/-!
Verification development for the M3U playlist liveness checker
(`check_m3u_links.js`) and its formatting collaborators (`sort-m3u.js`,
`cleanM3u`).  Strings are modelled as `List Char`; JavaScript string
operations (`trim`, `split`, `startsWith`, `lastIndexOf`, `indexOf`,
`substring`, the regex matches used by the scripts) are embedded below.
Network behaviour is modelled by injecting, per retry attempt, the
low-level event each underlying request would observe.
-/

/-- Whitespace characters recognised by JavaScript `trim` and `\s`
(the subset relevant to playlist text, plus NBSP and BOM). -/
def isJsSpace (c : Char) : Bool :=
  c = ' ' || c = '\t' || c = '\n' || c = '\r' ||
  c = Char.ofNat 0x0b || c = Char.ofNat 0x0c ||
  c = Char.ofNat 0xa0 || c = Char.ofNat 0xfeff

/-- JavaScript `String.prototype.trim`: drop leading and trailing whitespace. -/
def trimL (s : List Char) : List Char :=
  ((s.dropWhile isJsSpace).reverse.dropWhile isJsSpace).reverse

/-- JavaScript `content.split('\n')`; note `"".split('\n')` is `[""]`. -/
def splitLines : List Char → List (List Char)
  | [] => [[]]
  | c :: rest =>
    if c = '\n' then [] :: splitLines rest
    else
      match splitLines rest with
      | [] => [[c]]
      | l :: ls => (c :: l) :: ls

/-- JavaScript `str.startsWith(pre)` on `List Char`. -/
def startsWithL : List Char → List Char → Bool
  | [], _ => true
  | _ :: _, [] => false
  | p :: ps, c :: cs => p == c && startsWithL ps cs

/-- JavaScript `str.lastIndexOf(ch)` (as `Option` instead of `-1`). -/
def lastIndexOf (ch : Char) : List Char → Option Nat
  | [] => none
  | c :: cs =>
    match lastIndexOf ch cs with
    | some i => some (i + 1)
    | none => if c = ch then some 0 else none

/-- JavaScript `str.indexOf(ch)` (as `Option` instead of `-1`). -/
def firstIndexOf (ch : Char) : List Char → Option Nat
  | [] => none
  | c :: cs => if c = ch then some 0 else (firstIndexOf ch cs).map (· + 1)

/-- Match the regex `group-title="([^"]+)"` at the head of `s`,
returning the capture: a nonempty run of non-quote characters that is
followed by a closing quote. -/
def groupTitleAt (s : List Char) : Option (List Char) :=
  let pat := "group-title=\"".toList
  if startsWithL pat s then
    let rest := s.drop pat.length
    let cap := rest.takeWhile (fun c => !(c == '"'))
    if cap.isEmpty then none
    else if startsWithL ['"'] (rest.drop cap.length) then some cap
    else none
  else none

/-- First match of `group-title="([^"]+)"` anywhere in `s`
(JavaScript `attributesPart.match(/group-title="([^"]+)"/)`). -/
def findGroupTitle : List Char → Option (List Char)
  | [] => none
  | c :: cs =>
    match groupTitleAt (c :: cs) with
    | some cap => some cap
    | none => findGroupTitle cs

/-- Metadata held in the parser's pending-`#EXTINF` register. -/
structure ExtinfMeta where
  title : List Char
  groupTitle : List Char
  deriving DecidableEq, Repr

/-- One parsed playlist entry. -/
structure StreamEntry where
  url : List Char
  title : List Char
  groupTitle : List Char
  deriving DecidableEq, Repr

/-- The `#EXTINF:` marker the checker's parser keys on. -/
def extinfMarker : List Char := "#EXTINF:".toList

/-- Body of `parseM3U`'s `#EXTINF` branch applied to the regex capture
`extinfContent` (the line minus the `#EXTINF:` marker): split at the last
comma into attribute block and title, extract `group-title`; with no
comma, fall back to the whole content as title. -/
def parseExtinfContent (extinfContent : List Char) : ExtinfMeta :=
  match lastIndexOf ',' extinfContent with
  | some i =>
    let attributesPart := trimL (extinfContent.take i)
    let title := trimL (extinfContent.drop (i + 1))
    { title := title, groupTitle := (findGroupTitle attributesPart).getD [] }
  | none => { title := extinfContent, groupTitle := [] }

/-- Metadata stored for one `#EXTINF`-marked line.  The source regex
`^#EXTINF:(.+)$` fails exactly when nothing follows the marker, in which
case the fallback metadata `{title: 'Unknown', groupTitle: ''}` is stored. -/
def extinfLineMeta (line : List Char) : ExtinfMeta :=
  let extinfContent := line.drop extinfMarker.length
  if extinfContent.isEmpty then { title := "Unknown".toList, groupTitle := [] }
  else parseExtinfContent extinfContent

/-- The line loop of `parseM3U`, parameterised by the URL-validity test
(`isValidUrl` delegates to the external WHATWG `URL` constructor), with the
pending-metadata register made explicit. -/
def parseLines (isUrl : List Char → Bool) :
    List (List Char) → Option ExtinfMeta → List StreamEntry
  | [], _ => []
  | line :: rest, currentExtinf =>
    if startsWithL extinfMarker line then
      parseLines isUrl rest (some (extinfLineMeta line))
    else if !(startsWithL ['#'] line) && isUrl line then
      { url := line,
        title := (currentExtinf.getD { title := "Unknown".toList, groupTitle := [] }).title,
        groupTitle := (currentExtinf.getD { title := "Unknown".toList, groupTitle := [] }).groupTitle }
        :: parseLines isUrl rest none
    else
      parseLines isUrl rest currentExtinf

/-- Line preparation in `parseM3U`: split on newlines, trim, drop empties. -/
def prepLines (content : List Char) : List (List Char) :=
  ((splitLines content).map trimL).filter (fun l => !l.isEmpty)

/-- The parser `parseM3U` applied to file content that was successfully read. -/
def parseEntries (isUrl : List Char → Bool) (content : List Char) : List StreamEntry :=
  parseLines isUrl (prepLines content) none

/-- Full `parseM3U` including its existence check: a missing file throws
`` `${filepath} not found!` ``, modelled as `Except.error`. -/
def parseM3U (isUrl : List Char → Bool) (fileExists : Bool) (content : List Char) :
    Except (List Char) (List StreamEntry) :=
  if fileExists then .ok (parseEntries isUrl content)
  else .error ("free.m3u not found!".toList)

/-- Modelled from the spec: `isValidUrl` delegates to the external Node
`URL` constructor, absent from this repository; the spec requires "a
syntactically valid absolute URI", modelled as an ASCII-letter scheme
followed by a colon. -/
def isValidUrlModel (s : List Char) : Bool :=
  match s with
  | [] => false
  | c :: rest => c.isAlpha && (rest.takeWhile (fun d => !(d == ':'))).length + 1 < s.length

/-- A line the parser turns into an entry: not a comment and a valid URL. -/
def urlBearing (isUrl : List Char → Bool) (line : List Char) : Bool :=
  !(startsWithL ['#'] line) && isUrl line

example : parseExtinfContent ("-1 group-title=\"News\",Channel, The Show".toList) =
    { title := "The Show".toList, groupTitle := "News".toList } := by decide

example : isValidUrlModel ("http://example.com/a".toList) = true := by decide

example : isValidUrlModel ("nourl".toList) = false := by decide

/-! ## Prober: `checkUrl`, `makeRequest`, `makeGetRequest` -/

/-- Configuration constant `REQUEST_TIMEOUT` (ms). -/
def REQUEST_TIMEOUT : Nat := 10000

/-- Configuration constant `MAX_RETRIES`. -/
def MAX_RETRIES : Nat := 2

/-- Node error codes distinguished by `makeRequest`'s error handler. -/
inductive ErrCode where
  | econnrefused
  | enotfound
  | etimedout
  | otherCode
  deriving DecidableEq, Repr

/-- A low-level error object delivered to a request's error handler:
its `code` and its raw `message`. -/
structure NetError where
  code : ErrCode
  message : List Char
  deriving DecidableEq, Repr

/-- The event an underlying HTTP request observes: a response with a
status code, the timeout handler firing, or the error handler firing. -/
inductive LowEvent where
  | response (status : Nat)
  | timeoutEvt
  | errorEvt (e : NetError)
  deriving DecidableEq, Repr

/-- Injected network behaviour for one retry attempt: the event the
header-only (HEAD) request would observe, and the event the fallback
ranged GET would observe were it issued. -/
structure AttemptEnv where
  head : LowEvent
  get : LowEvent
  deriving DecidableEq, Repr

/-- Message produced by a request's timeout handler:
`` `Timeout after ${REQUEST_TIMEOUT}ms` ``. -/
def timeoutMsg : List Char :=
  "Timeout after ".toList ++ (Nat.repr REQUEST_TIMEOUT).toList ++ "ms".toList

/-- Classification of a low-level error by the error handler of `makeRequest`. -/
def classifyHeadError (e : NetError) : List Char :=
  match e.code with
  | .econnrefused => "Connection refused".toList
  | .enotfound => "Host not found".toList
  | .etimedout => "Connection timeout".toList
  | .otherCode => "Connection error: ".toList ++ e.message

/-- Outcome and instrumentation of one `makeRequest` call. -/
structure ReqTrace where
  /-- Resolved status or rejected error message. -/
  outcome : Except (List Char) Nat
  /-- How many fallback `makeGetRequest` calls were issued. -/
  getCount : Nat
  /-- Every HTTP status code received during the call. -/
  statuses : List Nat
  deriving Repr

/-- The request `makeRequest`: issue the HEAD request; on status 405 fall back to
`makeGetRequest` (whose timeout is classified but whose errors are
rejected raw); otherwise resolve the HEAD status.  HEAD-level timeouts
and errors are classified into short messages. -/
def makeRequestT (a : AttemptEnv) : ReqTrace :=
  match a.head with
  | .response s =>
    if s = 405 then
      match a.get with
      | .response s2 => { outcome := .ok s2, getCount := 1, statuses := [s, s2] }
      | .timeoutEvt => { outcome := .error timeoutMsg, getCount := 1, statuses := [s] }
      | .errorEvt e => { outcome := .error e.message, getCount := 1, statuses := [s] }
    else { outcome := .ok s, getCount := 0, statuses := [s] }
  | .timeoutEvt => { outcome := .error timeoutMsg, getCount := 0, statuses := [] }
  | .errorEvt e => { outcome := .error (classifyHeadError e), getCount := 0, statuses := [] }

/-- The probe's result record `{isAlive, error, statusCode}`. -/
structure ProbeResult where
  isAlive : Bool
  error : List Char
  statusCode : Nat
  deriving DecidableEq, Repr

/-- Result and instrumentation of one `checkUrl` call. -/
structure ProbeTrace where
  result : ProbeResult
  /-- Retry-loop iterations executed (= `makeRequest` calls). -/
  attempts : Nat
  /-- Fallback GET requests issued over all iterations. -/
  getRequests : Nat
  /-- Every HTTP status code received over all iterations. -/
  statuses : List Nat
  deriving DecidableEq, Repr

/-- The retry loop of `checkUrl` from attempt index `attempt`: on a
response, classify alive/dead by `status < 400`; on failure, return the
dead result on the last allowed attempt, otherwise back off and retry.
The loop guard `attempt < MAX_RETRIES` is encoded structurally as the
fuel `MAX_RETRIES - attempt`; `none` models the loop falling off the
end (unreachable for `MAX_RETRIES = 2`). -/
def checkUrlGo (env : Nat → AttemptEnv) : Nat → Nat → Option ProbeTrace
  | _, 0 => none
  | attempt, fuel + 1 =>
    let t := makeRequestT (env attempt)
    match t.outcome with
    | .ok s =>
      if s < 400 then
        some { result := { isAlive := true, error := [], statusCode := s },
               attempts := 1, getRequests := t.getCount, statuses := t.statuses }
      else
        some { result := { isAlive := false,
                           error := "HTTP ".toList ++ (Nat.repr s).toList,
                           statusCode := s },
               attempts := 1, getRequests := t.getCount, statuses := t.statuses }
    | .error msg =>
      if attempt = MAX_RETRIES - 1 then
        some { result := { isAlive := false, error := msg, statusCode := 0 },
               attempts := 1, getRequests := t.getCount, statuses := t.statuses }
      else
        match checkUrlGo env (attempt + 1) fuel with
        | some tr =>
          some { result := tr.result, attempts := tr.attempts + 1,
                 getRequests := t.getCount + tr.getRequests,
                 statuses := t.statuses ++ tr.statuses }
        | none => none

/-- The probe `checkUrl` with its instrumentation. -/
def checkUrlT (env : Nat → AttemptEnv) : Option ProbeTrace :=
  checkUrlGo env 0 MAX_RETRIES

/-- The probe `checkUrl`: just the returned `ProbeResult`. -/
def checkUrl (env : Nat → AttemptEnv) : Option ProbeResult :=
  (checkUrlT env).map (fun tr => tr.result)

/-- Total version of `checkUrl` used by `runCheck` (for `MAX_RETRIES = 2`
the loop always returns; the default is never taken). -/
def checkUrlTotal (env : Nat → AttemptEnv) : ProbeResult :=
  (checkUrl env).getD { isAlive := false, error := [], statusCode := 0 }

/-! ## Checker orchestrator: `runCheck` -/

/-- One dead-stream record accumulated by `runCheck`. -/
structure DeadRecord where
  entry : StreamEntry
  error : List Char
  statusCode : Nat
  deriving DecidableEq, Repr

/-- Observable outcome of one `runCheck` invocation. -/
inductive RunOutcome where
  /-- The `catch` branch ran: the playlist could not be obtained;
  `process.exit(1)`. -/
  | fatal (message : List Char)
  /-- Zero entries: probing skipped, "No stream URLs found in playlist"
  reported, no success rate computed; normal return. -/
  | noEntries
  /-- All entries probed; final summary with these counts and the
  itemized dead-stream records; normal return. -/
  | completed (aliveCount : Nat) (deadStreams : List DeadRecord)
  deriving Repr

/-- The per-entry probe loop of `runCheck`: sequentially probe each entry
(the network behaviour of entry `i` is `net i`), counting alive entries
and accumulating dead records in order. -/
def probeEntries (net : Nat → Nat → AttemptEnv) :
    Nat → List StreamEntry → Nat × List DeadRecord
  | _, [] => (0, [])
  | i, entry :: rest =>
    let result := checkUrlTotal (net i)
    let (aliveCount, deadStreams) := probeEntries net (i + 1) rest
    if result.isAlive then (aliveCount + 1, deadStreams)
    else (aliveCount,
      { entry := entry, error := result.error, statusCode := result.statusCode }
        :: deadStreams)

/-- The orchestrator `runCheck`: parse the playlist (a parse failure is caught and turns
into `process.exit(1)`); with zero entries skip probing and return; else
probe every entry in order and report the aggregate. -/
def runCheck (isUrl : List Char → Bool) (fileExists : Bool) (content : List Char)
    (net : Nat → Nat → AttemptEnv) : RunOutcome :=
  match parseM3U isUrl fileExists content with
  | .error msg => .fatal msg
  | .ok entries =>
    if entries.length = 0 then .noEntries
    else
      let (aliveCount, deadStreams) := probeEntries net 0 entries
      .completed aliveCount deadStreams

/-- Process exit status of one `runCheck` invocation: 1 from the `catch`
branch, 0 otherwise. -/
def exitCodeOf : RunOutcome → Nat
  | .fatal _ => 1
  | .noEntries => 0
  | .completed _ _ => 0

/-! ## Formatter collaborator: `cleanM3u` -/

/-- JavaScript `line.replace(/\s+/g, ' ')`: each maximal run of
whitespace becomes one space.  The flag records whether the previous
character was part of a whitespace run. -/
def collapseWsAux : Bool → List Char → List Char
  | _, [] => []
  | prev, c :: rest =>
    if isJsSpace c then
      if prev then collapseWsAux true rest
      else ' ' :: collapseWsAux true rest
    else c :: collapseWsAux false rest

/-- JavaScript `line.replace(/\s+/g, ' ')`. -/
def collapseWs (s : List Char) : List Char :=
  collapseWsAux false s

/-- The per-line transformation of `cleanM3u`: trim; on `#EXTINF` lines
collapse whitespace and re-join at the first comma with the title part
trimmed; on other lines just collapse whitespace. -/
def cleanLine (line : List Char) : List Char :=
  let t := trimL line
  if startsWithL ("#EXTINF".toList) t then
    let c := collapseWs t
    match firstIndexOf ',' c with
    | some i => c.take i ++ ',' :: trimL (c.drop (i + 1))
    | none => c
  else collapseWs t

/-- Whole-file `cleanM3u` body: per-line cleanup, empty lines removed
(the final re-trim and trailing newline are not modelled). -/
def cleanM3uLines (content : List Char) : List (List Char) :=
  ((splitLines content).map cleanLine).filter (fun l => !l.isEmpty)

/-- Collapsed whitespace: no two adjacent characters are both
whitespace. -/
def SpacedOk (l : List Char) : Prop :=
  l.Chain' (fun a b => ¬(isJsSpace a = true ∧ isJsSpace b = true))

example : cleanLine ("#EXTINF:-1,  Channel,  The   Show".toList) =
    "#EXTINF:-1,Channel, The Show".toList := by decide

example : checkUrl (fun _ => { head := .response 200, get := .timeoutEvt }) =
    some { isAlive := true, error := [], statusCode := 200 } := by decide

example : checkUrl (fun _ => { head := .response 404, get := .timeoutEvt }) =
    some { isAlive := false, error := "HTTP 404".toList, statusCode := 404 } := by decide

example : checkUrl (fun _ => { head := .timeoutEvt, get := .timeoutEvt }) =
    some { isAlive := false, error := timeoutMsg, statusCode := 0 } := by decide

example : checkUrl (fun _ => { head := .response 405, get := .response 206 }) =
    some { isAlive := true, error := [], statusCode := 206 } := by decide

/-! ## Helper lemmas on the string primitives -/

theorem startsWithL_append (p rest : List Char) : startsWithL p (p ++ rest) = true := by
  induction p with
  | nil => rfl
  | cons c cs ih => simp [startsWithL, ih]

theorem take_length_append {α : Type} (a b : List α) : (a ++ b).take a.length = a := by
  induction a with
  | nil => rfl
  | cons c cs ih => simp [ih]

theorem drop_length_append {α : Type} (a b : List α) : (a ++ b).drop a.length = b := by
  induction a with
  | nil => rfl
  | cons c cs ih => simp [ih]

theorem lastIndexOf_eq_none {ch : Char} {s : List Char} (h : ch ∉ s) :
    lastIndexOf ch s = none := by
  induction s with
  | nil => rfl
  | cons c cs ih =>
    have hc : ¬(c = ch) := fun he => h (he ▸ List.mem_cons_self c cs)
    have hcs : ch ∉ cs := fun hm => h (List.mem_cons_of_mem c hm)
    simp [lastIndexOf, ih hcs, hc]

theorem lastIndexOf_append_cons (a : List Char) {b : List Char} {ch : Char} (h : ch ∉ b) :
    lastIndexOf ch (a ++ ch :: b) = some a.length := by
  induction a with
  | nil => simp [lastIndexOf, lastIndexOf_eq_none h]
  | cons c cs ih => simp [lastIndexOf, ih]

theorem firstIndexOf_append_cons (a : List Char) (b : List Char) {ch : Char} (h : ch ∉ a) :
    firstIndexOf ch (a ++ ch :: b) = some a.length := by
  induction a with
  | nil => simp [firstIndexOf]
  | cons c cs ih =>
    have hc : ¬(c = ch) := fun he => h (he ▸ List.mem_cons_self c cs)
    have hcs : ch ∉ cs := fun hm => h (List.mem_cons_of_mem c hm)
    simp [firstIndexOf, hc, ih hcs]

theorem startsWithHash_of_extinf {line : List Char}
    (h : startsWithL extinfMarker line = true) : startsWithL ['#'] line = true := by
  cases line with
  | nil => exact absurd h (by decide)
  | cons c cs =>
    have hm : extinfMarker = '#' :: "EXTINF:".toList := rfl
    rw [hm] at h
    simp [startsWithL] at h ⊢
    exact h.1

/-! ## Parser lemmas -/

/-- The entries emitted by the parser's line loop are exactly the
URL-bearing lines, in order, whatever metadata is pending. -/
theorem parseLines_map_url (isUrl : List Char → Bool) (lines : List (List Char)) :
    ∀ pending, (parseLines isUrl lines pending).map StreamEntry.url
      = lines.filter (urlBearing isUrl) := by
  induction lines with
  | nil => intro pending; rfl
  | cons line rest ih =>
    intro pending
    by_cases hx : startsWithL extinfMarker line = true
    · have hh := startsWithHash_of_extinf hx
      have hub : urlBearing isUrl line = false := by simp [urlBearing, hh]
      simp [parseLines, hx, List.filter_cons, hub, ih]
    · by_cases hu : urlBearing isUrl line = true
      · have hu2 : (!(startsWithL ['#'] line) && isUrl line) = true := hu
        simp [parseLines, hx, hu2, List.filter_cons, hu, ih]
      · have hu3 : urlBearing isUrl line = false := Bool.not_eq_true _ ▸ hu
        have hu2 : (!(startsWithL ['#'] line) && isUrl line) = false := hu3
        simp [parseLines, hx, hu2, List.filter_cons, hu3, ih]

theorem length_filter_and_le {α : Type} (p q : α → Bool) (l : List α) :
    (l.filter (fun x => p x && q x)).length ≤ (l.filter q).length := by
  induction l with
  | nil => simp
  | cons a as ih =>
    by_cases hq : q a = true
    · by_cases hp : p a = true <;>
        simp [List.filter_cons, hp, hq] <;> omega
    · have hq2 : q a = false := Bool.not_eq_true _ ▸ hq
      simp [List.filter_cons, hq2, Bool.and_false, ih]

/-! ## Claim theorems: parser -/

/-- C8: parsing is order-preserving — the i-th entry's url is the i-th
URL-bearing (non-comment, valid-URL) line of the prepared input — and a
metadata line with no following valid URL line produces no entry, so the
number of entries is at most the number of valid URL lines. -/
theorem parse_order_preserving (isUrl : List Char → Bool) (content : List Char) :
    (parseEntries isUrl content).map StreamEntry.url
        = (prepLines content).filter (urlBearing isUrl)
      ∧ (parseEntries isUrl content).length
        ≤ ((prepLines content).filter (fun l => isUrl l)).length := by
  have h1 := parseLines_map_url isUrl (prepLines content) none
  refine ⟨h1, ?_⟩
  have h2 : (parseEntries isUrl content).length
      = ((prepLines content).filter (urlBearing isUrl)).length := by
    rw [← h1, List.length_map]; rfl
  rw [h2]
  exact length_filter_and_le (fun l => !(startsWithL ['#'] l)) isUrl (prepLines content)

/-- C7: a playlist text with zero URL-bearing lines parses to the empty
entry list (no error), and the run then skips probing and reports no
entries (so no success rate is computed). -/
theorem empty_playlist_graceful (isUrl : List Char → Bool) (content : List Char)
    (net : Nat → Nat → AttemptEnv)
    (h : (prepLines content).filter (urlBearing isUrl) = []) :
    parseM3U isUrl true content = .ok [] ∧ runCheck isUrl true content net = .noEntries := by
  have h1 := parseLines_map_url isUrl (prepLines content) none
  rw [h] at h1
  have h2 : parseEntries isUrl content = [] := List.map_eq_nil_iff.mp h1
  constructor
  · simp [parseM3U, h2]
  · simp [runCheck, parseM3U, h2]

/-- Closed witness for `empty_playlist_graceful` at a header-plus-metadata
playlist. -/
theorem empty_playlist_graceful_witness :
    parseM3U isValidUrlModel true ("#EXTM3U\n#EXTINF:-1,Foo".toList) = .ok []
      ∧ runCheck isValidUrlModel true ("#EXTM3U\n#EXTINF:-1,Foo".toList)
          (fun _ _ => { head := .timeoutEvt, get := .timeoutEvt }) = .noEntries :=
  empty_playlist_graceful isValidUrlModel _ _ (by decide)

/-- C4 counterexample: on the spec's own example metadata line the parser
splits at the last comma of `-1 group-title="News",Channel, The Show`,
which lies inside "Channel, The Show", so the produced title is
"The Show", not "Channel, The Show". -/
theorem extinf_example_splits_inside_title :
    parseEntries isValidUrlModel
        ("#EXTINF:-1 group-title=\"News\",Channel, The Show\nhttp://ex.com/s".toList)
      = [{ url := "http://ex.com/s".toList, title := "The Show".toList,
           groupTitle := "News".toList }]
      ∧ "The Show".toList ≠ "Channel, The Show".toList := by
  exact ⟨by decide, by decide⟩

/-- C4 amended: for metadata content with at least one comma the parser
splits at the last comma — the title is the trimmed text after it and
`group-title` is extracted from the trimmed text before it; on the spec's
example this yields title "The Show" (not "Channel, The Show") and
groupTitle "News". -/
theorem extinf_splits_at_last_comma :
    (∀ a b : List Char, ',' ∉ b →
        parseExtinfContent (a ++ ',' :: b)
          = { title := trimL b, groupTitle := (findGroupTitle (trimL a)).getD [] })
      ∧ parseExtinfContent ("-1 group-title=\"News\",Channel, The Show".toList)
          = { title := "The Show".toList, groupTitle := "News".toList } := by
  constructor
  · intro a b hb
    simp [parseExtinfContent, lastIndexOf_append_cons a hb, take_length_append,
      drop_length_append a (',' :: b)]
  · decide

/-- Closed witness for `extinf_splits_at_last_comma` at a concrete
attribute block and comma-free title. -/
theorem extinf_splits_at_last_comma_witness :
    parseExtinfContent ("-1 group-title=\"Sports\"".toList ++ ',' :: " Kanal 5 ".toList)
      = { title := trimL (" Kanal 5 ".toList),
          groupTitle := (findGroupTitle (trimL ("-1 group-title=\"Sports\"".toList))).getD [] } :=
  extinf_splits_at_last_comma.1 _ _ (by decide)

/-- C10 counterexample: the line `#EXTINF:` has empty, comma-free content
after the prefix, yet the stored metadata gives title "Unknown", not the
(empty) remaining content, because the source regex `^#EXTINF:(.+)$`
requires nonempty content. -/
theorem extinf_empty_content_gives_unknown :
    parseEntries isValidUrlModel ("#EXTINF:\nhttp://ex.com/s".toList)
      = [{ url := "http://ex.com/s".toList, title := "Unknown".toList, groupTitle := [] }]
      ∧ "Unknown".toList ≠ ([] : List Char) := by
  exact ⟨by decide, by decide⟩

/-- C10 amended: for every `#EXTINF` line whose content after the
`#EXTINF:` prefix is nonempty and contains no comma, the parser stores
pending metadata whose title is that entire content and whose groupTitle
is empty, even when the content carries a `group-title="..."` attribute;
for the empty content the fallback title "Unknown" is stored instead. -/
theorem extinf_no_comma_whole_title (isUrl : List Char → Bool)
    (content : List Char) (rest : List (List Char)) (pending : Option ExtinfMeta)
    (hne : content ≠ []) (hc : ',' ∉ content) :
    extinfLineMeta (extinfMarker ++ content) = { title := content, groupTitle := [] }
      ∧ parseLines isUrl ((extinfMarker ++ content) :: rest) pending
          = parseLines isUrl rest (some { title := content, groupTitle := [] }) := by
  have hmeta : extinfLineMeta (extinfMarker ++ content)
      = { title := content, groupTitle := [] } := by
    have hdrop : (extinfMarker ++ content).drop extinfMarker.length = content :=
      drop_length_append extinfMarker content
    have hie : content.isEmpty = false := by
      cases content with
      | nil => exact absurd rfl hne
      | cons c cs => rfl
    simp [extinfLineMeta, hdrop, hie, parseExtinfContent, lastIndexOf_eq_none hc]
  refine ⟨hmeta, ?_⟩
  have hsw : startsWithL extinfMarker (extinfMarker ++ content) = true :=
    startsWithL_append extinfMarker content
  simp [parseLines, hsw, hmeta]

/-- Closed witness for `extinf_no_comma_whole_title`: a comma-free
metadata line that does carry a `group-title` attribute. -/
theorem extinf_no_comma_whole_title_witness :
    extinfLineMeta (extinfMarker ++ "-1 group-title=\"News\" Channel".toList)
      = { title := "-1 group-title=\"News\" Channel".toList, groupTitle := [] }
      ∧ parseLines isValidUrlModel
          ((extinfMarker ++ "-1 group-title=\"News\" Channel".toList) :: []) none
          = parseLines isValidUrlModel []
              (some { title := "-1 group-title=\"News\" Channel".toList, groupTitle := [] }) :=
  extinf_no_comma_whole_title isValidUrlModel _ [] none (by decide) (by decide)

/-! ## Prober lemmas -/

theorem mr_ok_mem {a : AttemptEnv} {s : Nat}
    (h : (makeRequestT a).outcome = .ok s) : s ∈ (makeRequestT a).statuses := by
  rcases a with ⟨head, get⟩
  cases head with
  | response s0 =>
    by_cases h405 : s0 = 405
    · subst h405
      cases get <;> simp_all [makeRequestT]
    · simp_all [makeRequestT, h405]
  | timeoutEvt => simp_all [makeRequestT]
  | errorEvt e => simp_all [makeRequestT]

theorem mr_ok_lt_iff {a : AttemptEnv} {s : Nat}
    (h : (makeRequestT a).outcome = .ok s) :
    (∃ x ∈ (makeRequestT a).statuses, x < 400) ↔ s < 400 := by
  rcases a with ⟨head, get⟩
  cases head with
  | response s0 =>
    by_cases h405 : s0 = 405
    · subst h405
      cases get <;> simp_all [makeRequestT]
    · simp_all [makeRequestT, h405]
  | timeoutEvt => simp_all [makeRequestT]
  | errorEvt e => simp_all [makeRequestT]

theorem mr_err_ge {a : AttemptEnv} {m : List Char}
    (h : (makeRequestT a).outcome = .error m) :
    ∀ x ∈ (makeRequestT a).statuses, 400 ≤ x := by
  rcases a with ⟨head, get⟩
  cases head with
  | response s0 =>
    by_cases h405 : s0 = 405
    · subst h405
      cases get <;> simp_all [makeRequestT]
    · simp_all [makeRequestT, h405]
  | timeoutEvt => simp_all [makeRequestT]
  | errorEvt e => simp_all [makeRequestT]

/-- If the first attempt's request resolves, `checkUrl` returns after one
attempt with that status classified by `status < 400`. -/
theorem checkUrlT_first_ok {env : Nat → AttemptEnv} {s : Nat}
    (h : (makeRequestT (env 0)).outcome = .ok s) :
    checkUrlT env = some
      { result :=
          if s < 400 then { isAlive := true, error := [], statusCode := s }
          else { isAlive := false, error := "HTTP ".toList ++ (Nat.repr s).toList,
                 statusCode := s },
        attempts := 1, getRequests := (makeRequestT (env 0)).getCount,
        statuses := (makeRequestT (env 0)).statuses } := by
  simp only [checkUrlT, MAX_RETRIES, checkUrlGo, h]
  split <;> simp

/-- If the first attempt fails and the second resolves, `checkUrl`
returns after two attempts with the second status. -/
theorem checkUrlT_second_ok {env : Nat → AttemptEnv} {m : List Char} {s : Nat}
    (h0 : (makeRequestT (env 0)).outcome = .error m)
    (h1 : (makeRequestT (env 1)).outcome = .ok s) :
    checkUrlT env = some
      { result :=
          if s < 400 then { isAlive := true, error := [], statusCode := s }
          else { isAlive := false, error := "HTTP ".toList ++ (Nat.repr s).toList,
                 statusCode := s },
        attempts := 2,
        getRequests := (makeRequestT (env 0)).getCount + (makeRequestT (env 1)).getCount,
        statuses := (makeRequestT (env 0)).statuses ++ (makeRequestT (env 1)).statuses } := by
  simp only [checkUrlT, MAX_RETRIES, checkUrlGo, h0, h1]
  by_cases hs : s < 400 <;> simp [hs]

/-- If both attempts fail, `checkUrl` returns the dead result carrying
the second failure's message and status code 0. -/
theorem checkUrlT_both_err {env : Nat → AttemptEnv} {m0 m1 : List Char}
    (h0 : (makeRequestT (env 0)).outcome = .error m0)
    (h1 : (makeRequestT (env 1)).outcome = .error m1) :
    checkUrlT env = some
      { result := { isAlive := false, error := m1, statusCode := 0 },
        attempts := 2,
        getRequests := (makeRequestT (env 0)).getCount + (makeRequestT (env 1)).getCount,
        statuses := (makeRequestT (env 0)).statuses ++ (makeRequestT (env 1)).statuses } := by
  simp only [checkUrlT, MAX_RETRIES, checkUrlGo, h0, h1]
  simp

/-! ## Claim theorems: prober -/

/-- C1: the probe's result is alive exactly when some HTTP status
obtained during the probe is < 400 (any status >= 400 or persistent
transport failure yields a dead result), and when no response was ever
received the result is dead with statusCode 0. -/
theorem probe_isAlive_iff (env : Nat → AttemptEnv) (tr : ProbeTrace)
    (h : checkUrlT env = some tr) :
    (tr.result.isAlive = true ↔ ∃ s ∈ tr.statuses, s < 400)
      ∧ (tr.statuses = [] → tr.result.isAlive = false ∧ tr.result.statusCode = 0) := by
  cases h0 : (makeRequestT (env 0)).outcome with
  | ok s =>
    rw [checkUrlT_first_ok h0] at h
    obtain rfl := Option.some.inj h
    constructor
    · by_cases hs : s < 400 <;> simp [hs, mr_ok_lt_iff h0]
    · intro hemp
      exact absurd (hemp ▸ mr_ok_mem h0) (List.not_mem_nil s)
  | error m =>
    cases h1 : (makeRequestT (env 1)).outcome with
    | ok s =>
      rw [checkUrlT_second_ok h0 h1] at h
      obtain rfl := Option.some.inj h
      constructor
      · have hiff := mr_ok_lt_iff h1
        have hge := mr_err_ge h0
        by_cases hs : s < 400
        · simp only [hs, if_true]
          constructor
          · intro _
            obtain ⟨x, hx, hxlt⟩ := hiff.mpr hs
            exact ⟨x, List.mem_append.mpr (Or.inr hx), hxlt⟩
          · intro _; trivial
        · simp only [hs, if_false]
          constructor
          · intro hfalse; exact absurd hfalse (by simp)
          · rintro ⟨x, hx, hxlt⟩
            rcases List.mem_append.mp hx with h2 | h2
            · have := hge x h2; omega
            · exact absurd (hiff.mp ⟨x, h2, hxlt⟩) hs
      · intro hemp
        have h2 : (makeRequestT (env 1)).statuses = [] :=
          (List.append_eq_nil.mp hemp).2
        exact absurd (h2 ▸ mr_ok_mem h1) (List.not_mem_nil s)
    | error m1 =>
      rw [checkUrlT_both_err h0 h1] at h
      obtain rfl := Option.some.inj h
      constructor
      · simp only [List.mem_append]
        constructor
        · intro hfalse; exact absurd hfalse (by simp)
        · rintro ⟨x, hx, hxlt⟩
          cases hx with
          | inl h2 => have := mr_err_ge h0 x h2; omega
          | inr h2 => have := mr_err_ge h1 x h2; omega
      · intro _; exact ⟨rfl, rfl⟩

/-- Closed witness for `probe_isAlive_iff`: a probe whose single attempt
responds 200. -/
theorem probe_isAlive_iff_witness :
    (checkUrlT (fun _ => { head := .response 200, get := .timeoutEvt }) = some
        { result := { isAlive := true, error := [], statusCode := 200 },
          attempts := 1, getRequests := 0, statuses := [200] })
      ∧ ((true : Bool) = true ↔ ∃ s ∈ [200], s < 400) := by
  have h : checkUrlT (fun _ => { head := .response 200, get := .timeoutEvt }) = some
      { result := { isAlive := true, error := [], statusCode := 200 },
        attempts := 1, getRequests := 0, statuses := [200] } := by decide
  exact ⟨h, (probe_isAlive_iff _ _ h).1⟩

/-- C2: the probe's retry loop executes at most `MAX_RETRIES` = 2
request attempts, whatever the injected network behaviour. -/
theorem probe_retry_bound (env : Nat → AttemptEnv) (tr : ProbeTrace)
    (h : checkUrlT env = some tr) :
    tr.attempts ≤ MAX_RETRIES ∧ MAX_RETRIES = 2 := by
  refine ⟨?_, rfl⟩
  cases h0 : (makeRequestT (env 0)).outcome with
  | ok s =>
    rw [checkUrlT_first_ok h0] at h
    obtain rfl := Option.some.inj h
    simp [MAX_RETRIES]
  | error m =>
    cases h1 : (makeRequestT (env 1)).outcome with
    | ok s =>
      rw [checkUrlT_second_ok h0 h1] at h
      obtain rfl := Option.some.inj h
      simp [MAX_RETRIES]
    | error m1 =>
      rw [checkUrlT_both_err h0 h1] at h
      obtain rfl := Option.some.inj h
      simp [MAX_RETRIES]

/-- Closed witness for `probe_retry_bound`: a probe that exhausts both
attempts (timeout then timeout). -/
theorem probe_retry_bound_witness :
    (checkUrlT (fun _ => { head := .timeoutEvt, get := .timeoutEvt }) = some
        { result := { isAlive := false, error := timeoutMsg, statusCode := 0 },
          attempts := 2, getRequests := 0, statuses := [] })
      ∧ 2 ≤ MAX_RETRIES ∧ MAX_RETRIES = 2 := by
  have h : checkUrlT (fun _ => { head := .timeoutEvt, get := .timeoutEvt }) = some
      { result := { isAlive := false, error := timeoutMsg, statusCode := 0 },
        attempts := 2, getRequests := 0, statuses := [] } := by decide
  exact ⟨h, probe_retry_bound _ _ h⟩

/-- C3: an attempt whose HEAD request receives status 405 issues exactly
one follow-up ranged GET within the same attempt, and when the GET
responds, the attempt resolves with the GET's status (not the 405). -/
theorem head_405_fallback (a : AttemptEnv) (h : a.head = .response 405) :
    (makeRequestT a).getCount = 1
      ∧ ∀ s2, a.get = .response s2 → (makeRequestT a).outcome = .ok s2 := by
  rcases a with ⟨head, get⟩
  simp only at h
  subst h
  cases get <;> simp [makeRequestT]

/-- Closed witness for `head_405_fallback`: HEAD 405 followed by GET 206. -/
theorem head_405_fallback_witness :
    (makeRequestT { head := .response 405, get := .response 206 }).getCount = 1
      ∧ (makeRequestT { head := .response 405, get := .response 206 }).outcome = .ok 206 :=
  ⟨(head_405_fallback { head := .response 405, get := .response 206 } rfl).1,
    (head_405_fallback { head := .response 405, get := .response 206 } rfl).2 206 rfl⟩

/-! ## Error-message classification -/

/-- The five classified transport-failure messages named by the spec. -/
def isClassifiedMessage (m : List Char) : Prop :=
  m = timeoutMsg ∨ m = "Connection refused".toList ∨ m = "Host not found".toList
    ∨ m = "Connection timeout".toList
    ∨ ∃ d, m = "Connection error: ".toList ++ d

/-- The raw Node message of a refused connection, as delivered to
`makeGetRequest`'s error handler and rejected unclassified. -/
def rawRefusedMsg : List Char := "connect ECONNREFUSED 127.0.0.1:80".toList

/-- The injected behaviour refuting C6: every attempt sees HEAD 405 and
then a connection-refused GET fallback. -/
def envGetRefused : Nat → AttemptEnv := fun _ =>
  { head := .response 405,
    get := .errorEvt { code := .econnrefused, message := rawRefusedMsg } }

/-- C6 counterexample: when the 405-triggered GET fallback fails with a
connection error, `makeGetRequest` rejects the raw error, so the dead
result carries the raw Node message, which is none of the five
classified messages. -/
theorem get_fallback_error_unclassified :
    checkUrl envGetRefused
        = some { isAlive := false, error := rawRefusedMsg, statusCode := 0 }
      ∧ ¬ isClassifiedMessage rawRefusedMsg := by
  constructor
  · decide
  · intro h
    rcases h with h | h | h | h | ⟨d, hd⟩
    · exact absurd h (by decide)
    · exact absurd h (by decide)
    · exact absurd h (by decide)
    · exact absurd h (by decide)
    · have hsw : startsWithL ("Connection error: ".toList) rawRefusedMsg = true := by
        rw [hd]; exact startsWithL_append _ d
      exact absurd hsw (by decide)

/-- C6 amended: a transport failure is classified into one of the five
short messages except when it is a non-timeout failure of the GET
fallback, whose raw error message is propagated unchanged; and on the
last allowed attempt the failing attempt's message becomes the dead
result's errorMessage with statusCode 0. -/
theorem transport_failure_classification :
    (∀ (a : AttemptEnv) (m : List Char), (makeRequestT a).outcome = .error m →
        isClassifiedMessage m
          ∨ ∃ e, a.head = .response 405 ∧ a.get = .errorEvt e ∧ m = e.message)
      ∧ (∀ (env : Nat → AttemptEnv) (m0 m1 : List Char),
          (makeRequestT (env 0)).outcome = .error m0 →
          (makeRequestT (env 1)).outcome = .error m1 →
          checkUrl env = some { isAlive := false, error := m1, statusCode := 0 }) := by
  constructor
  · intro a m h
    rcases a with ⟨head, get⟩
    cases head with
    | response s0 =>
      by_cases h405 : s0 = 405
      · subst h405
        cases get with
        | response s2 => simp [makeRequestT] at h
        | timeoutEvt =>
          left
          simp [makeRequestT] at h
          exact Or.inl h.symm
        | errorEvt e =>
          right
          simp [makeRequestT] at h
          exact ⟨e, rfl, rfl, h.symm⟩
      · simp [makeRequestT, h405] at h
    | timeoutEvt =>
      left
      simp [makeRequestT] at h
      exact Or.inl h.symm
    | errorEvt e =>
      left
      simp [makeRequestT] at h
      cases hc : e.code <;> simp [classifyHeadError, hc] at h
      · exact Or.inr (Or.inl h.symm)
      · exact Or.inr (Or.inr (Or.inl h.symm))
      · exact Or.inr (Or.inr (Or.inr (Or.inl h.symm)))
      · exact Or.inr (Or.inr (Or.inr (Or.inr ⟨e.message, h.symm⟩)))
  · intro env m0 m1 h0 h1
    rw [checkUrl, checkUrlT_both_err h0 h1]
    rfl

/-- Closed witness for `transport_failure_classification`: a refused
HEAD connection is classified, and two consecutive HEAD timeouts make
the timeout message the dead result's errorMessage. -/
theorem transport_failure_classification_witness :
    (isClassifiedMessage ("Connection refused".toList)
        ∨ ∃ e, ({ head := .errorEvt { code := .econnrefused, message := rawRefusedMsg },
                  get := .timeoutEvt } : AttemptEnv).head = .response 405
            ∧ ({ head := .errorEvt { code := .econnrefused, message := rawRefusedMsg },
                 get := .timeoutEvt } : AttemptEnv).get = .errorEvt e
            ∧ "Connection refused".toList = e.message)
      ∧ checkUrl (fun _ => { head := .timeoutEvt, get := .timeoutEvt })
          = some { isAlive := false, error := timeoutMsg, statusCode := 0 } :=
  ⟨transport_failure_classification.1
      { head := .errorEvt { code := .econnrefused, message := rawRefusedMsg },
        get := .timeoutEvt } ("Connection refused".toList) rfl,
    transport_failure_classification.2 (fun _ => { head := .timeoutEvt, get := .timeoutEvt })
      timeoutMsg timeoutMsg rfl rfl⟩

/-! ## Claim theorems: exit status -/

/-- C5 counterexample: with an empty source file the run parses zero
entries, reports "no entries", and exits 0 — not the non-zero exit the
claim requires for an empty source file. -/
theorem empty_source_exits_zero :
    runCheck isValidUrlModel true []
        (fun _ _ => { head := .timeoutEvt, get := .timeoutEvt }) = .noEntries
      ∧ exitCodeOf (runCheck isValidUrlModel true []
          (fun _ _ => { head := .timeoutEvt, get := .timeoutEvt })) = 0 := by
  constructor
  · rfl
  · rfl

/-- C5 amended: the exit status is non-zero exactly when the playlist
source cannot be read at all; an empty source file yields zero entries
and a zero exit, and dead streams never by themselves cause a non-zero
exit. -/
theorem exit_nonzero_iff_source_unreadable (isUrl : List Char → Bool)
    (fileExists : Bool) (content : List Char) (net : Nat → Nat → AttemptEnv) :
    exitCodeOf (runCheck isUrl fileExists content net) ≠ 0 ↔ fileExists = false := by
  cases fileExists with
  | false => simp [runCheck, parseM3U, exitCodeOf]
  | true =>
    simp only [runCheck, parseM3U, if_true]
    by_cases hlen : (parseEntries isUrl content).length = 0 <;>
      simp [hlen, exitCodeOf]

/-! ## Whitespace-collapsing lemmas for `cleanM3u` -/

theorem collapseWsAux_true_head :
    ∀ (s : List Char) {c : Char} {cs : List Char},
      collapseWsAux true s = c :: cs → isJsSpace c = false := by
  intro s
  induction s with
  | nil => intro c cs h; simp [collapseWsAux] at h
  | cons a as ih =>
    intro c cs h
    by_cases ha : isJsSpace a = true
    · simp [collapseWsAux, ha] at h
      exact ih h
    · simp [collapseWsAux, ha] at h
      have hfalse : isJsSpace a = false := Bool.not_eq_true _ ▸ ha
      exact h.1 ▸ hfalse

theorem spacedOk_collapseWsAux (s : List Char) :
    ∀ prev, SpacedOk (collapseWsAux prev s) := by
  induction s with
  | nil => intro prev; simp [collapseWsAux, SpacedOk]
  | cons a as ih =>
    intro prev
    by_cases ha : isJsSpace a = true
    · cases prev with
      | true => simpa [collapseWsAux, ha] using ih true
      | false =>
        simp only [collapseWsAux, ha, if_true, Bool.false_eq_true, if_false]
        rw [SpacedOk, List.chain'_cons']
        refine ⟨?_, ih true⟩
        intro y hy
        cases hh : collapseWsAux true as with
        | nil => rw [hh] at hy; simp at hy
        | cons c cs =>
          rw [hh] at hy
          simp only [List.head?_cons, Option.mem_def, Option.some.injEq] at hy
          subst hy
          intro hcon
          exact absurd hcon.2 (by simp [collapseWsAux_true_head as hh])
    · have hfalse : isJsSpace a = false := Bool.not_eq_true _ ▸ ha
      simp only [collapseWsAux, hfalse, Bool.false_eq_true, if_false]
      rw [SpacedOk, List.chain'_cons']
      refine ⟨?_, ih false⟩
      intro y hy hcon
      exact absurd hcon.1 (by simp [hfalse])

theorem collapseWsAux_space_mem (s : List Char) :
    ∀ prev c, c ∈ collapseWsAux prev s → isJsSpace c = true → c = ' ' := by
  induction s with
  | nil => intro prev c h; simp [collapseWsAux] at h
  | cons a as ih =>
    intro prev c h hc
    by_cases ha : isJsSpace a = true
    · cases prev with
      | true =>
        simp only [collapseWsAux, ha, if_true] at h
        exact ih true c h hc
      | false =>
        simp only [collapseWsAux, ha, if_true, Bool.false_eq_true, if_false,
          List.mem_cons] at h
        cases h with
        | inl h2 => exact h2
        | inr h2 => exact ih true c h2 hc
    · have hfalse : isJsSpace a = false := Bool.not_eq_true _ ▸ ha
      simp only [collapseWsAux, hfalse, Bool.false_eq_true, if_false,
        List.mem_cons] at h
      cases h with
      | inl h2 => exact absurd (h2 ▸ hc) (by simp [hfalse])
      | inr h2 => exact ih false c h2 hc

theorem isInfix_of_isPrefix {α : Type} {l1 l2 : List α} (h : l1 <+: l2) : l1 <:+: l2 := by
  obtain ⟨t, ht⟩ := h
  exact ⟨[], t, by simpa using ht⟩

/-- Trimming returns a contiguous substring of its input. -/
theorem trimL_isInfix (l : List Char) : trimL l <:+: l := by
  have h1 : l.dropWhile isJsSpace <:+ l :=
    ⟨l.takeWhile isJsSpace, List.takeWhile_append_dropWhile isJsSpace l⟩
  have h2 : (l.dropWhile isJsSpace).reverse.dropWhile isJsSpace
      <:+ (l.dropWhile isJsSpace).reverse :=
    ⟨(l.dropWhile isJsSpace).reverse.takeWhile isJsSpace,
      List.takeWhile_append_dropWhile isJsSpace (l.dropWhile isJsSpace).reverse⟩
  obtain ⟨pre, hpre⟩ := h2
  have h3 : trimL l ++ pre.reverse = l.dropWhile isJsSpace := by
    have := congrArg List.reverse hpre
    simpa [trimL, List.reverse_append] using this
  exact (isInfix_of_isPrefix ⟨pre.reverse, h3⟩).trans h1.isInfix

theorem drop_length_succ_append {α : Type} (a : List α) (x : α) (b : List α) :
    (a ++ x :: b).drop (a.length + 1) = b := by
  induction a with
  | nil => rfl
  | cons c cs ih => simp [ih]

/-- C9: `cleanM3u` collapses whitespace runs in every line to single
spaces, and on `#EXTINF` lines it re-joins the line at the *first* comma
(trimming the title side) — whereas the checker's parser splits the same
metadata at the *last* comma, as the final two conjuncts witness
concretely on one input. -/
theorem cleanM3u_whitespace_and_first_comma :
    (∀ line : List Char, SpacedOk (cleanLine line)
        ∧ ∀ c ∈ cleanLine line, isJsSpace c = true → c = ' ')
      ∧ (∀ t a b : List Char, startsWithL ("#EXTINF".toList) t = true →
          trimL t = t → collapseWs t = t → t = a ++ ',' :: b → ',' ∉ a →
          cleanLine t = a ++ ',' :: trimL b)
      ∧ cleanLine ("#EXTINF:-1, Channel, The Show".toList)
          = "#EXTINF:-1,Channel, The Show".toList
      ∧ parseExtinfContent ("-1, Channel, The Show".toList)
          = { title := "The Show".toList, groupTitle := [] } := by
  refine ⟨?_, ?_, by decide, by decide⟩
  · intro line
    rw [cleanLine]
    by_cases hsw : startsWithL ("#EXTINF".toList) (trimL line) = true
    · simp only [hsw, if_true]
      cases hfi : firstIndexOf ',' (collapseWs (trimL line)) with
      | none =>
        exact ⟨spacedOk_collapseWsAux (trimL line) false,
          fun c hc => collapseWsAux_space_mem (trimL line) false c hc⟩
      | some i =>
        have hcol : SpacedOk (collapseWs (trimL line)) :=
          spacedOk_collapseWsAux (trimL line) false
        constructor
        · rw [SpacedOk, List.chain'_append]
          refine ⟨?_, ?_, ?_⟩
          · exact List.Chain'.prefix hcol ( List.take_prefix i _)
          · rw [List.chain'_cons']
            refine ⟨fun y _ hcon => absurd hcon.1 (by decide), ?_⟩
            exact hcol.infix
              ((trimL_isInfix _).trans (List.drop_suffix (i + 1) _).isInfix)
          · intro x _ y hy
            simp only [List.head?_cons, Option.mem_def, Option.some.injEq] at hy
            subst hy
            intro hcon
            exact absurd hcon.2 (by decide)
        · intro c hc hspace
          rcases List.mem_append.mp hc with h2 | h2
          · exact collapseWsAux_space_mem (trimL line) false c
              (List.mem_of_mem_take h2) hspace
          · rcases List.mem_cons.mp h2 with h3 | h3
            · exact absurd (h3 ▸ hspace) (by decide)
            · have h4 : c ∈ (collapseWs (trimL line)).drop (i + 1) :=
                ((trimL_isInfix _).subset) h3
              exact collapseWsAux_space_mem (trimL line) false c
                (List.mem_of_mem_drop h4) hspace
    · simp only [hsw, if_false]
      exact ⟨spacedOk_collapseWsAux (trimL line) false,
        fun c hc => collapseWsAux_space_mem (trimL line) false c hc⟩
  · intro t a b hsw htr hco hsplit hnc
    rw [cleanLine]
    simp only [htr, hsw, if_true, hco]
    rw [hsplit, firstIndexOf_append_cons a b hnc]
    show List.take a.length (a ++ ',' :: b)
        ++ ',' :: trimL (List.drop (a.length + 1) (a ++ ',' :: b))
      = a ++ ',' :: trimL b
    rw [take_length_append, drop_length_succ_append]

/-- Closed witness for `cleanM3u_whitespace_and_first_comma`'s
first-comma clause. -/
theorem cleanM3u_first_comma_witness :
    cleanLine ("#EXTINF:-1, News, Live".toList)
      = "#EXTINF:-1".toList ++ ',' :: trimL (" News, Live".toList) :=
  cleanM3u_whitespace_and_first_comma.2.1 ("#EXTINF:-1, News, Live".toList)
    ("#EXTINF:-1".toList) (" News, Live".toList)
    (by decide) (by decide) (by decide) (by decide) (by decide)
